import Mathlib

/-!
Shallow embedding of `model.py` (ImageSpamClassifier), covering the
label-balanced dataset splitter `SpamDataset.split_dataset_with_balancing`
and the observable checkpoint/loss behaviour of the training loop
`train_image_spam_classifier`.

Modelling conventions:
* A Python `dict` mapping image paths to labels is an ordered association
  list `List (String × String)` (Python dicts iterate in insertion order).
* The float `train_ratio` is modelled as a rational number `ℚ`; Python
  `int(x)` on a float truncates towards zero (`truncRat`).
* Python `int(s)` on a string is `pyIntOfString`: it strips whitespace,
  accepts an optional sign followed by one or more decimal digits, and
  raises `ValueError` otherwise (modelled as `Option Int`).
* Python list slicing `l[:k]` / `l[k:]` is `pySliceTo` / `pySliceFrom`,
  including the negative-index wrap-around and out-of-range clamping.
* A raised exception is the `Except.error` branch of `Except PyError`.
* Python `round(x, 3)` is exact round-half-even on rationals (`round3`).
-/

/-- The only exception the modelled code can raise: `int(label)` on a
non-numeric string raises `ValueError`. -/
inductive PyError where
  | valueError
deriving DecidableEq, Repr

/-- Truncation towards zero, the behaviour of Python `int()` applied to a
number: `int(1.7) = 1`, `int(-1.7) = -1`. -/
def truncRat (q : ℚ) : ℤ :=
  if q < 0 then -⌊-q⌋ else ⌊q⌋

/-- Normalise a Python slice bound for a list of length `n`: a negative
bound counts from the end, and the result is clamped into `[0, n]` by
`Int.toNat` below and by `List.take`/`List.drop` above. -/
def pyNormIdx (n : Nat) (k : ℤ) : Nat :=
  (if k < 0 then k + (n : ℤ) else k).toNat

/-- Python `l[:k]`. -/
def pySliceTo (l : List α) (k : ℤ) : List α :=
  l.take (pyNormIdx l.length k)

/-- Python `l[k:]`. -/
def pySliceFrom (l : List α) (k : ℤ) : List α :=
  l.drop (pyNormIdx l.length k)

/-- Drop leading whitespace characters. -/
def dropWhite : List Char → List Char
  | [] => []
  | c :: cs => if c.isWhitespace then dropWhite cs else c :: cs

/-- Python `str.strip()`: remove leading and trailing whitespace. -/
def pyStrip (cs : List Char) : List Char :=
  (dropWhite (dropWhite cs.reverse)).reverse

/-- Numeric value of a digit string (only meaningful when all characters
are digits). -/
def digitsVal (cs : List Char) : Nat :=
  cs.foldl (fun a c => a * 10 + (c.toNat - 48)) 0

/-- Parse a non-empty all-digit character list. -/
def parseDigits (cs : List Char) : Option Nat :=
  if cs ≠ [] ∧ cs.all Char.isDigit then some (digitsVal cs) else none

/-- Python `int(s)` for a string `s`: strip whitespace, then an optional
sign followed by decimal digits; `none` models the `ValueError` raised on
any other input (e.g. `"spam"` or `"1.5"`). -/
def pyIntOfString (s : String) : Option ℤ :=
  match pyStrip s.data with
  | '-' :: rest => (parseDigits rest).map (fun n => -(n : ℤ))
  | '+' :: rest => (parseDigits rest).map (fun n => (n : ℤ))
  | cs => (parseDigits cs).map (fun n => (n : ℤ))

/-- One step of `balance_dict.setdefault(label, list()).append(img_path)`:
append `p` to the group of `label`, creating the group at the end if it is
new (Python dict insertion order). -/
def addToGroup (acc : List (String × List String)) (label : String) (p : String) :
    List (String × List String) :=
  if acc.any (fun kv => kv.1 = label) then
    acc.map (fun kv => if kv.1 = label then (kv.1, kv.2 ++ [p]) else kv)
  else
    acc ++ [(label, [p])]

/-- The first loop of `split_dataset_with_balancing` (model.py lines
29–31): group image paths by label, preserving the mapping's iteration
order both for labels and for the paths inside each group. -/
def buildBalanceDict (label_json : List (String × String)) : List (String × List String) :=
  label_json.foldl (fun acc pr => addToGroup acc pr.2 pr.1) []

/-- The slice of a label's path list that the selected side of the split
receives (model.py lines 34–38): `split_index = int(len(img_paths) *
train_ratio)`, then `img_paths[:split_index]` for train and
`img_paths[split_index:]` for test. -/
def selectedSlice (train : Bool) (train_ratio : ℚ) (img_paths : List String) : List String :=
  let split_index := truncRat ((img_paths.length : ℚ) * train_ratio)
  if train then pySliceTo img_paths split_index else pySliceFrom img_paths split_index

/-- The inner `for img_path in _img_paths` loop (model.py lines 39–40):
append `(img_path, int(label) - 1)` to `contents`; `int(label)` raises
`ValueError` when the label does not parse, so the error occurs only when
the slice is non-empty. -/
def appendSlice (label : String) (ps : List String) (contents : List (String × ℤ)) :
    Except PyError (List (String × ℤ)) :=
  match ps with
  | [] => .ok contents
  | p :: rest =>
    match pyIntOfString label with
    | some v => appendSlice label rest (contents ++ [(p, v - 1)])
    | none => .error .valueError

/-- The outer `for label, img_paths in balance_dict.items()` loop
(model.py lines 33–40). -/
def splitLoop (groups : List (String × List String)) (train : Bool) (train_ratio : ℚ)
    (contents : List (String × ℤ)) : Except PyError (List (String × ℤ)) :=
  match groups with
  | [] => .ok contents
  | (label, img_paths) :: rest =>
    match appendSlice label (selectedSlice train train_ratio img_paths) contents with
    | .ok contents' => splitLoop rest train train_ratio contents'
    | .error e => .error e

/-- Embeds `SpamDataset.split_dataset_with_balancing` (model.py lines 28–41). -/
def split_dataset_with_balancing (label_json : List (String × String)) (train : Bool)
    (train_ratio : ℚ) : Except PyError (List (String × ℤ)) :=
  splitLoop (buildBalanceDict label_json) train train_ratio []

/-- The `SpamDataset` object: its `contents` field. -/
structure SpamDataset where
  contents : List (String × ℤ)
deriving DecidableEq, Repr

/-- Embeds `SpamDataset.__init__` (model.py lines 14–20); defaults `train=True`,
`train_ratio=0.7`. An uncaught `ValueError` aborts construction. -/
def SpamDataset.make (label_json : List (String × String)) (train : Bool := true)
    (train_ratio : ℚ := 7/10) : Except PyError SpamDataset :=
  (split_dataset_with_balancing label_json train train_ratio).map SpamDataset.mk

/-- Embeds `SpamDataset.__len__` (model.py lines 22–23). -/
def SpamDataset.len (d : SpamDataset) : Nat :=
  d.contents.length

/-- Python `round(q)` to the nearest integer with ties to even
(banker's rounding), modelled exactly on rationals. -/
def roundHalfEven (q : ℚ) : ℤ :=
  if q - ⌊q⌋ < 1/2 then ⌊q⌋
  else if q - ⌊q⌋ > 1/2 then ⌊q⌋ + 1
  else if ⌊q⌋ % 2 = 0 then ⌊q⌋ else ⌊q⌋ + 1

/-- Python `round(q, 3)`: round to three decimal places, ties to even. -/
def round3 (q : ℚ) : ℚ :=
  (roundHalfEven (q * 1000) : ℚ) / 1000

/-- One epoch's batch loop (model.py lines 56–73), restricted to its loss
bookkeeping: given the raw per-batch loss values `raw` (the `loss.item()`
results, an oracle for the numeric framework) and the value the Python
variable `loss_mean` holds on entry, return the final `losses` list and
`loss_mean`.  The code appends `round(loss.item(), 3)` to `losses` and
recomputes `loss_mean = round(sum(losses) / len(losses), 3)` each batch;
with no batch, `loss_mean` keeps its entry value. -/
def epochLosses (lm0 : ℚ) (raw : List ℚ) : List ℚ × ℚ :=
  raw.foldl
    (fun st item =>
      let losses' := st.1 ++ [round3 item]
      (losses', round3 (losses'.sum / (losses'.length : ℚ))))
    ([], lm0)

/-- Decimal digits of a natural number, as Python's `str` renders it. -/
def natDigits (n : Nat) : List Char :=
  (Nat.toDigits 10 n)

/-- Strip trailing `'0'` characters but keep at least one character, the
way Python's shortest float repr prints `0.41` for `round(0.410, 3)` and
`0.0` for `round(0.0, 3)`. -/
def stripTrailZeros : List Char → List Char
  | [] => []
  | [c] => [c]
  | c :: cs =>
    match stripTrailZeros cs with
    | ['0'] => [c]
    | cs' => c :: cs'

/-- Render a multiple of `1/1000` the way Python's `repr` renders the
float `round(x, 3)`: integer part, a dot, then the up-to-three decimal
digits with trailing zeros removed (but at least one digit). Only used on
outputs of `round3`. -/
def formatPyFloat (q : ℚ) : String :=
  let k : ℤ := ⌊q * 1000⌋
  let sign := if k < 0 then ("-") else ("")
  let a := k.natAbs
  let intPart := String.mk (natDigits (a / 1000))
  let fracDigits := natDigits (a % 1000)
  let padded := List.replicate (3 - fracDigits.length) '0' ++ fracDigits
  sign ++ intPart ++ "." ++ String.mk (stripTrailZeros padded)

/-- Builds `f'vit_epochs_{epoch}_loss_{loss_mean}.pt'` (model.py line 74). -/
def checkpointName (epoch : Nat) (loss_mean : ℚ) : String :=
  "vit_epochs_" ++ String.mk (natDigits epoch) ++ "_loss_" ++ formatPyFloat loss_mean ++ ".pt"

/-- Embeds `num_epochs` (model.py line 54). -/
def num_epochs : Nat := 5

/-- The epoch loop of `train_image_spam_classifier` (model.py lines
55–76), restricted to its observable checkpoint behaviour: `rawLosses e`
is the oracle giving the raw per-batch losses of epoch `e`.  The state is
(saved checkpoint names in order, current `model_checkpoint`, current
`loss_mean`).  Each epoch saves one checkpoint named from the epoch index
and the epoch's final `loss_mean`, and rebinds `model_checkpoint` to that
name; the function returns the state after all epochs. -/
def trainEpochs (model_checkpoint : String) (rawLosses : Nat → List ℚ) :
    List String × String × ℚ :=
  (List.range num_epochs).foldl
    (fun st epoch =>
      let lm := (epochLosses st.2.2 (rawLosses epoch)).2
      let name := checkpointName epoch lm
      (st.1 ++ [name], name, lm))
    ([], model_checkpoint, 0)

/-- The checkpoint names `train_image_spam_classifier` saves, in order. -/
def savedCheckpoints (model_checkpoint : String) (rawLosses : Nat → List ℚ) : List String :=
  (trainEpochs model_checkpoint rawLosses).1

/-- The value `train_image_spam_classifier` returns (model.py line 76). -/
def trainResult (model_checkpoint : String) (rawLosses : Nat → List ℚ) : String :=
  (trainEpochs model_checkpoint rawLosses).2.1

/-- The labels of `m` that are not in `ks`, in first-occurrence order:
the keys `buildBalanceDict` adds to an accumulator whose keys are `ks`. -/
def newKeys : List String → List (String × String) → List String
  | _, [] => []
  | ks, pr :: rest =>
    if pr.2 ∈ ks then newKeys ks rest else pr.2 :: newKeys (ks ++ [pr.2]) rest

/-- The distinct labels of the mapping in first-occurrence order: the key
order of the Python `balance_dict`. -/
def pyKeys (m : List (String × String)) : List String :=
  newKeys [] m

/-- The paths of `m` carrying label `l`, in iteration order: the group
`balance_dict[l]` ends up holding. -/
def groupOf (m : List (String × String)) (l : String) : List String :=
  (m.filter (fun pr => pr.2 = l)).map Prod.fst

theorem newKeys_not_mem (m : List (String × String)) :
    ∀ ks l, l ∈ newKeys ks m → l ∉ ks := by
  induction m with
  | nil => intro ks l h; simp [newKeys] at h
  | cons pr rest ih =>
    intro ks l h
    simp only [newKeys] at h
    by_cases hb : pr.2 ∈ ks
    · rw [if_pos hb] at h
      exact ih ks l h
    · rw [if_neg hb] at h
      rcases List.mem_cons.1 h with h | h
      · exact h ▸ hb
      · intro hl
        exact ih (ks ++ [pr.2]) l h (List.mem_append_left _ hl)

theorem newKeys_nodup (m : List (String × String)) :
    ∀ ks, (newKeys ks m).Nodup := by
  induction m with
  | nil => intro ks; simp [newKeys]
  | cons pr rest ih =>
    intro ks
    simp only [newKeys]
    by_cases hb : pr.2 ∈ ks
    · rw [if_pos hb]; exact ih ks
    · rw [if_neg hb]
      refine List.Nodup.cons ?_ (ih (ks ++ [pr.2]))
      intro hmem
      exact newKeys_not_mem rest (ks ++ [pr.2]) pr.2 hmem (List.mem_append_right _ (List.mem_singleton.2 rfl))

theorem addToGroup_mem (ks : List String) (g : String → List String) (b p : String)
    (hb : b ∈ ks) :
    addToGroup (ks.map (fun l => (l, g l))) b p
      = ks.map (fun l => (l, if l = b then g l ++ [p] else g l)) := by
  rw [addToGroup, if_pos]
  · rw [List.map_map]
    apply List.map_congr_left
    intro l _
    by_cases hl : l = b
    · simp [Function.comp, hl]
    · simp [Function.comp, hl]
  · simp only [List.any_eq_true, List.mem_map, decide_eq_true_eq]
    exact ⟨(b, g b), ⟨b, hb, rfl⟩, rfl⟩

theorem addToGroup_new (ks : List String) (g : String → List String) (b p : String)
    (hb : b ∉ ks) :
    addToGroup (ks.map (fun l => (l, g l))) b p
      = (ks ++ [b]).map (fun l => (l, if l = b then [p] else g l)) := by
  rw [addToGroup, if_neg]
  · rw [List.map_append]
    have h1 : ks.map (fun l => (l, g l)) = ks.map (fun l => (l, if l = b then [p] else g l)) := by
      apply List.map_congr_left
      intro l hl
      have : l ≠ b := fun h => hb (h ▸ hl)
      simp [this]
    rw [h1]
    simp
  · simp only [List.any_eq_true, List.mem_map, decide_eq_true_eq]
    rintro ⟨kv, ⟨l, hl, hkv⟩, hlb⟩
    rw [← hkv] at hlb
    exact hb (hlb ▸ hl)

theorem foldl_addToGroup (m : List (String × String)) :
    ∀ (ks : List String) (g : String → List String),
      m.foldl (fun acc pr => addToGroup acc pr.2 pr.1) (ks.map (fun l => (l, g l)))
        = (ks ++ newKeys ks m).map
            (fun l => (l, (if l ∈ ks then g l else []) ++ groupOf m l)) := by
  induction m with
  | nil =>
    intro ks g
    simp only [List.foldl_nil, newKeys, List.append_nil, groupOf, List.filter_nil,
      List.map_nil]
    apply List.map_congr_left
    intro l hl
    simp [hl]
  | cons pr rest ih =>
    intro ks g
    obtain ⟨p, b⟩ := pr
    rw [List.foldl_cons]
    by_cases hb : b ∈ ks
    · rw [show addToGroup (List.map (fun l => (l, g l)) ks) (p, b).2 (p, b).1
          = ks.map (fun l => (l, if l = b then g l ++ [p] else g l)) from
          addToGroup_mem ks g b p hb]
      rw [ih ks (fun l => if l = b then g l ++ [p] else g l)]
      have hnew : newKeys ks ((p, b) :: rest) = newKeys ks rest := by
        simp only [newKeys]
        rw [if_pos hb]
      rw [hnew]
      apply List.map_congr_left
      intro l hl
      have hgroup : groupOf ((p, b) :: rest) l
          = if b = l then p :: groupOf rest l else groupOf rest l := by
        simp only [groupOf, List.filter_cons]
        by_cases hbl : b = l
        · simp [hbl]
        · simp [hbl]
      by_cases hks : l ∈ ks
      · by_cases hlb : l = b
        · subst hlb
          rw [hgroup, if_pos rfl]
          simp [hks]
        · have hbl : ¬b = l := fun h => hlb h.symm
          rw [hgroup, if_neg hbl]
          simp [hks, hlb]
      · have hlnew : l ∈ newKeys ks rest := by
          rcases List.mem_append.1 hl with h | h
          · exact absurd h hks
          · exact h
        have hlb : l ≠ b := fun h => hks (h ▸ hb)
        have hbl : ¬b = l := fun h => hlb h.symm
        rw [hgroup, if_neg hbl]
        simp [hks]
    · rw [show addToGroup (List.map (fun l => (l, g l)) ks) (p, b).2 (p, b).1
          = (ks ++ [b]).map (fun l => (l, if l = b then [p] else g l)) from
          addToGroup_new ks g b p hb]
      rw [ih (ks ++ [b]) (fun l => if l = b then [p] else g l)]
      have hnew : newKeys ks ((p, b) :: rest) = b :: newKeys (ks ++ [b]) rest := by
        simp only [newKeys]
        rw [if_neg hb]
      rw [hnew]
      have hkeys : (ks ++ [b]) ++ newKeys (ks ++ [b]) rest
          = ks ++ (b :: newKeys (ks ++ [b]) rest) := by
        simp
      rw [hkeys]
      apply List.map_congr_left
      intro l hl
      have hgroup : groupOf ((p, b) :: rest) l
          = if b = l then p :: groupOf rest l else groupOf rest l := by
        simp only [groupOf, List.filter_cons]
        by_cases hbl : b = l
        · simp [hbl]
        · simp [hbl]
      by_cases hlb : l = b
      · subst hlb
        rw [hgroup, if_pos rfl]
        simp [hb]
      · by_cases hks : l ∈ ks
        · have hmem : l ∈ ks ++ [b] := List.mem_append_left _ hks
          have hbl : ¬b = l := fun h => hlb h.symm
          rw [hgroup, if_neg hbl]
          simp [hks, hmem, hlb]
        · have hlnew : l ∈ newKeys (ks ++ [b]) rest := by
            rcases List.mem_append.1 hl with h | h
            · exact absurd h hks
            · rcases List.mem_cons.1 h with h | h
              · exact absurd h hlb
              · exact h
          have hmem : l ∉ ks ++ [b] := by
            intro hc
            rcases List.mem_append.1 hc with h | h
            · exact hks h
            · exact hlb (List.mem_singleton.1 h)
          have hbl : ¬b = l := fun h => hlb h.symm
          rw [hgroup, if_neg hbl]
          simp [hks, hmem, hlb]

theorem buildBalanceDict_eq (m : List (String × String)) :
    buildBalanceDict m = (pyKeys m).map (fun l => (l, groupOf m l)) := by
  have h := foldl_addToGroup m [] (fun _ => [])
  simp only [List.map_nil] at h
  rw [buildBalanceDict, h, pyKeys]
  simp

theorem mem_buildBalanceDict (m : List (String × String)) (lbl : String)
    (paths : List String) :
    (lbl, paths) ∈ buildBalanceDict m ↔ lbl ∈ pyKeys m ∧ paths = groupOf m lbl := by
  rw [buildBalanceDict_eq]
  simp only [List.mem_map, Prod.mk.injEq]
  constructor
  · rintro ⟨l, hl, rfl, rfl⟩
    exact ⟨hl, rfl⟩
  · rintro ⟨hl, rfl⟩
    exact ⟨lbl, hl, rfl, rfl⟩

theorem buildBalanceDict_keys_nodup (m : List (String × String)) :
    ((buildBalanceDict m).map Prod.fst).Nodup := by
  rw [buildBalanceDict_eq, List.map_map]
  have : (Prod.fst ∘ fun l => (l, groupOf m l)) = id := by
    funext l
    rfl
  rw [this, List.map_id]
  exact newKeys_nodup m []

theorem mem_groupOf (m : List (String × String)) (p lbl : String) :
    p ∈ groupOf m lbl ↔ (p, lbl) ∈ m := by
  simp only [groupOf, List.mem_map, List.mem_filter, decide_eq_true_eq]
  constructor
  · rintro ⟨pr, ⟨hpr, h2⟩, h1⟩
    have : pr = (p, lbl) := Prod.ext h1 h2
    exact this ▸ hpr
  · intro h
    exact ⟨(p, lbl), ⟨h, rfl⟩, rfl⟩

theorem groupOf_nodup (m : List (String × String)) (lbl : String)
    (h : (m.map Prod.fst).Nodup) : (groupOf m lbl).Nodup := by
  apply List.Nodup.sublist _ h
  exact List.Sublist.map Prod.fst (List.filter_sublist m)

theorem appendSlice_some (label : String) (v : ℤ) (h : pyIntOfString label = some v) :
    ∀ (ps : List String) (contents : List (String × ℤ)),
      appendSlice label ps contents = .ok (contents ++ ps.map (fun p => (p, v - 1))) := by
  intro ps
  induction ps with
  | nil => intro contents; simp [appendSlice]
  | cons p rest ih =>
    intro contents
    rw [appendSlice, h]
    show appendSlice label rest (contents ++ [(p, v - 1)]) = _
    rw [ih]
    simp

theorem appendSlice_none (label : String) (h : pyIntOfString label = none)
    (ps : List String) (hps : ps ≠ []) (contents : List (String × ℤ)) :
    appendSlice label ps contents = .error .valueError := by
  cases ps with
  | nil => exact absurd rfl hps
  | cons p rest => rw [appendSlice, h]

theorem splitLoop_ok_all (train : Bool) (train_ratio : ℚ) :
    ∀ (groups : List (String × List String)) (contents : List (String × ℤ)),
      (∀ gp ∈ groups, (pyIntOfString gp.1).isSome) →
      splitLoop groups train train_ratio contents
        = .ok (contents ++
            (groups.map (fun gp => (selectedSlice train train_ratio gp.2).map
              (fun p => (p, (pyIntOfString gp.1).getD 0 - 1)))).flatten) := by
  intro groups
  induction groups with
  | nil => intro contents _; simp [splitLoop]
  | cons gp rest ih =>
    intro contents hall
    obtain ⟨label, img_paths⟩ := gp
    have hsome := hall (label, img_paths) (List.mem_cons_self _ _)
    obtain ⟨v, hv⟩ := Option.isSome_iff_exists.1 hsome
    rw [splitLoop, appendSlice_some label v hv]
    show splitLoop rest train train_ratio
        (contents ++ (selectedSlice train train_ratio img_paths).map (fun p => (p, v - 1))) = _
    rw [ih _ (fun g hg => hall g (List.mem_cons_of_mem _ hg))]
    simp [hv]

theorem splitLoop_error (train : Bool) (train_ratio : ℚ) :
    ∀ (groups : List (String × List String)) (contents : List (String × ℤ))
      (lbl : String) (paths : List String),
      (lbl, paths) ∈ groups → pyIntOfString lbl = none →
      selectedSlice train train_ratio paths ≠ [] →
      splitLoop groups train train_ratio contents = .error .valueError := by
  intro groups
  induction groups with
  | nil => intro contents lbl paths h; simp at h
  | cons gp rest ih =>
    intro contents lbl paths hmem hnone hne
    obtain ⟨label, img_paths⟩ := gp
    rcases List.mem_cons.1 hmem with h | h
    · obtain ⟨h1, h2⟩ := Prod.mk.injEq .. ▸ h
      subst h1
      subst h2
      rw [splitLoop, appendSlice_none lbl hnone _ hne]
    · rw [splitLoop]
      cases happ : appendSlice label (selectedSlice train train_ratio img_paths) contents with
      | ok contents' => exact ih contents' lbl paths h hnone hne
      | error e => cases e; rfl

theorem splitLoop_ok_mem (train : Bool) (train_ratio : ℚ) :
    ∀ (groups : List (String × List String)) (contents out : List (String × ℤ)),
      splitLoop groups train train_ratio contents = .ok out →
      ∀ pr ∈ out, pr ∈ contents ∨
        ∃ lbl paths v, (lbl, paths) ∈ groups ∧ pyIntOfString lbl = some v ∧
          pr.1 ∈ selectedSlice train train_ratio paths ∧ pr.2 = v - 1 := by
  intro groups
  induction groups with
  | nil =>
    intro contents out hok pr hpr
    rw [splitLoop] at hok
    cases hok
    exact Or.inl hpr
  | cons gp rest ih =>
    intro contents out hok pr hpr
    obtain ⟨label, img_paths⟩ := gp
    rw [splitLoop] at hok
    cases happ : appendSlice label (selectedSlice train train_ratio img_paths) contents with
    | error e => rw [happ] at hok; cases hok
    | ok contents' =>
      rw [happ] at hok
      rcases ih contents' out hok pr hpr with hin | ⟨lbl, paths, v, hmem, hv, hp, hlab⟩
      · cases hparse : pyIntOfString label with
        | some v =>
          rw [appendSlice_some label v hparse] at happ
          cases happ
          rcases List.mem_append.1 hin with h | h
          · exact Or.inl h
          · obtain ⟨p, hp, hpe⟩ := List.mem_map.1 h
            refine Or.inr ⟨label, img_paths, v, List.mem_cons_self _ _, hparse, ?_, ?_⟩
            · rw [← hpe]
              exact hp
            · rw [← hpe]
        | none =>
          cases hsl : selectedSlice train train_ratio img_paths with
          | nil =>
            rw [hsl] at happ
            rw [appendSlice] at happ
            cases happ
            exact Or.inl hin
          | cons q qs =>
            rw [appendSlice_none label hparse _ (by rw [hsl]; simp)] at happ
            cases happ
      · exact Or.inr ⟨lbl, paths, v, List.mem_cons_of_mem _ hmem, hv, hp, hlab⟩

theorem truncRat_of_nonneg (q : ℚ) (h : 0 ≤ q) : truncRat q = ⌊q⌋ := by
  rw [truncRat, if_neg (not_lt.2 h)]

theorem pySliceTo_of_nonneg (l : List α) (k : ℤ) (h : 0 ≤ k) :
    pySliceTo l k = l.take k.toNat := by
  rw [pySliceTo, pyNormIdx, if_neg (not_lt.2 h)]

theorem pySliceFrom_of_nonneg (l : List α) (k : ℤ) (h : 0 ≤ k) :
    pySliceFrom l k = l.drop k.toNat := by
  rw [pySliceFrom, pyNormIdx, if_neg (not_lt.2 h)]

theorem splitIndex_floor (L : Nat) (r : ℚ) (h0 : 0 < r) :
    truncRat ((L : ℚ) * r) = ⌊(L : ℚ) * r⌋ :=
  truncRat_of_nonneg _ (mul_nonneg (Nat.cast_nonneg L) h0.le)

theorem floor_mul_le (L : Nat) (r : ℚ) (_h0 : 0 < r) (h1 : r < 1) :
    (⌊(L : ℚ) * r⌋).toNat ≤ L := by
  have hle : (L : ℚ) * r ≤ (L : ℚ) := by
    calc (L : ℚ) * r ≤ (L : ℚ) * 1 := by
          exact mul_le_mul_of_nonneg_left h1.le (Nat.cast_nonneg L)
      _ = (L : ℚ) := mul_one _
  have : ⌊(L : ℚ) * r⌋ ≤ ⌊(L : ℚ)⌋ := Int.floor_le_floor hle
  rw [Int.floor_natCast] at this
  omega

theorem selectedSlice_take (r : ℚ) (h0 : 0 < r) (ps : List String) :
    selectedSlice true r ps = ps.take (⌊(ps.length : ℚ) * r⌋).toNat := by
  rw [selectedSlice]
  show pySliceTo ps (truncRat ((ps.length : ℚ) * r)) = _
  rw [splitIndex_floor _ _ h0, pySliceTo_of_nonneg]
  exact Int.floor_nonneg.2 (mul_nonneg (Nat.cast_nonneg _) h0.le)

theorem selectedSlice_drop (r : ℚ) (h0 : 0 < r) (ps : List String) :
    selectedSlice false r ps = ps.drop (⌊(ps.length : ℚ) * r⌋).toNat := by
  rw [selectedSlice]
  show pySliceFrom ps (truncRat ((ps.length : ℚ) * r)) = _
  rw [splitIndex_floor _ _ h0, pySliceFrom_of_nonneg]
  exact Int.floor_nonneg.2 (mul_nonneg (Nat.cast_nonneg _) h0.le)

theorem selectedSlice_true_length (r : ℚ) (h0 : 0 < r) (h1 : r < 1) (ps : List String) :
    (selectedSlice true r ps).length = (⌊(ps.length : ℚ) * r⌋).toNat := by
  rw [selectedSlice_take r h0, List.length_take_of_le (floor_mul_le ps.length r h0 h1)]

theorem selectedSlice_concat (r : ℚ) (ps : List String) :
    selectedSlice true r ps ++ selectedSlice false r ps = ps := by
  rw [selectedSlice, selectedSlice]
  show pySliceTo ps (truncRat ((ps.length : ℚ) * r))
      ++ pySliceFrom ps (truncRat ((ps.length : ℚ) * r)) = ps
  rw [pySliceTo, pySliceFrom]
  exact List.take_append_drop _ _

theorem selectedSlice_disjoint (r : ℚ) (ps : List String) (h : ps.Nodup) :
    ∀ p, p ∈ selectedSlice true r ps → p ∉ selectedSlice false r ps := by
  rw [selectedSlice, selectedSlice]
  show ∀ p, p ∈ pySliceTo ps (truncRat ((ps.length : ℚ) * r)) →
      p ∉ pySliceFrom ps (truncRat ((ps.length : ℚ) * r))
  rw [pySliceTo, pySliceFrom]
  exact List.disjoint_take_drop h le_rfl

theorem selectedSlice_sublist (t : Bool) (r : ℚ) (ps : List String) :
    List.Sublist (selectedSlice t r ps) ps := by
  rw [selectedSlice]
  cases t with
  | true =>
    show List.Sublist (pySliceTo ps (truncRat ((ps.length : ℚ) * r))) ps
    exact List.take_sublist _ _
  | false =>
    show List.Sublist (pySliceFrom ps (truncRat ((ps.length : ℚ) * r))) ps
    exact List.drop_sublist _ _

theorem epochFoldAux :
    ∀ (raw : List ℚ) (ls : List ℚ) (lm : ℚ), raw ≠ [] →
      raw.foldl
        (fun st item =>
          let losses' := st.1 ++ [round3 item]
          (losses', round3 (losses'.sum / (losses'.length : ℚ))))
        (ls, lm)
      = (ls ++ raw.map round3,
         round3 ((ls ++ raw.map round3).sum / (((ls ++ raw.map round3).length : ℚ)))) := by
  intro raw
  induction raw with
  | nil => intro ls lm h; exact absurd rfl h
  | cons a rest ih =>
    intro ls lm _
    rw [List.foldl_cons]
    cases hr : rest with
    | nil =>
      simp [List.foldl_nil]
    | cons b rest2 =>
      rw [← hr]
      have hrest : rest ≠ [] := by rw [hr]; simp
      show List.foldl _
          (ls ++ [round3 a], round3 ((ls ++ [round3 a]).sum / ((ls ++ [round3 a]).length : ℚ)))
          rest = _
      rw [ih (ls ++ [round3 a]) _ hrest]
      simp

theorem epochLosses_mean (lm0 : ℚ) (raw : List ℚ) (h : raw ≠ []) :
    (epochLosses lm0 raw).2 = round3 ((raw.map round3).sum / ((raw.length : ℚ))) := by
  rw [epochLosses, epochFoldAux raw [] lm0 h]
  simp

theorem trainEpochs_eq (c : String) (f : Nat → List ℚ)
    (h : ∀ e, e < num_epochs → f e ≠ []) :
    trainEpochs c f
      = ((List.range num_epochs).map
          (fun e => checkpointName e (round3 (((f e).map round3).sum / ((f e).length : ℚ)))),
         checkpointName 4 (round3 (((f 4).map round3).sum / ((f 4).length : ℚ))),
         round3 (((f 4).map round3).sum / ((f 4).length : ℚ))) := by
  have hm : ∀ (lm0 : ℚ) (e : Nat), e < num_epochs →
      (epochLosses lm0 (f e)).2 = round3 (((f e).map round3).sum / ((f e).length : ℚ)) :=
    fun lm0 e he => epochLosses_mean lm0 (f e) (h e he)
  rw [trainEpochs]
  rw [show List.range num_epochs = [0, 1, 2, 3, 4] from by decide]
  simp only [List.foldl_cons, List.foldl_nil]
  rw [hm _ 0 (by decide), hm _ 1 (by decide), hm _ 2 (by decide), hm _ 3 (by decide),
    hm _ 4 (by decide)]
  simp

theorem split_ok_label_spec (m : List (String × String)) (t : Bool) (r : ℚ)
    (out : List (String × ℤ)) (hok : split_dataset_with_balancing m t r = .ok out) :
    ∀ pr ∈ out, ∃ lbl v, (pr.1, lbl) ∈ m ∧ pyIntOfString lbl = some v ∧ pr.2 = v - 1 := by
  intro pr hpr
  rw [split_dataset_with_balancing] at hok
  rcases splitLoop_ok_mem t r _ _ _ hok pr hpr with hin |
    ⟨lbl, paths, v, hmem, hv, hp, hlab⟩
  · simp at hin
  · have hpaths := (mem_buildBalanceDict m lbl paths).1 hmem
    have hmem2 : pr.1 ∈ paths := (selectedSlice_sublist t r paths).subset hp
    have hinm : (pr.1, lbl) ∈ m := (mem_groupOf m pr.1 lbl).1 (hpaths.2 ▸ hmem2)
    exact ⟨lbl, v, hinm, hv, hlab⟩

/-- Claim C1: for every label mapping and every ratio r in (0,1), the
splitter groups paths by label, and for each label's path list of length L
the split point is `⌊L * r⌋`: the train side is the slice of indices
`[0, ⌊L * r⌋)` and the test side the slice `[⌊L * r⌋, L)`; hence the
train subset for the label has length `⌊L * r⌋` and the two subsets'
lengths sum to L. -/
theorem C1_split_point (m : List (String × String)) (r : ℚ) (h0 : 0 < r) (h1 : r < 1)
    (lbl : String) (paths : List String)
    (hmem : (lbl, paths) ∈ buildBalanceDict m) :
    paths = groupOf m lbl ∧
    selectedSlice true r paths = paths.take (⌊(paths.length : ℚ) * r⌋).toNat ∧
    selectedSlice false r paths = paths.drop (⌊(paths.length : ℚ) * r⌋).toNat ∧
    (selectedSlice true r paths).length = (⌊(paths.length : ℚ) * r⌋).toNat ∧
    (selectedSlice true r paths).length + (selectedSlice false r paths).length
      = paths.length := by
  refine ⟨((mem_buildBalanceDict m lbl paths).1 hmem).2,
    selectedSlice_take r h0 paths, selectedSlice_drop r h0 paths,
    selectedSlice_true_length r h0 h1 paths, ?_⟩
  have hconcat := congrArg List.length (selectedSlice_concat r paths)
  simpa using hconcat

/-- Witness for C1 at the mapping of the spec's worked example, ratio 1/2,
label "1". -/
theorem C1_split_point_witness :
    ((0:ℚ) < 1/2 ∧ (1:ℚ)/2 < 1 ∧
      ("1", ["a.png", "b.png"])
        ∈ buildBalanceDict [("a.png", "1"), ("b.png", "1"), ("c.png", "2")]) ∧
    (["a.png", "b.png"]
        = groupOf [("a.png", "1"), ("b.png", "1"), ("c.png", "2")] "1" ∧
      selectedSlice true (1/2) ["a.png", "b.png"]
        = ["a.png", "b.png"].take (⌊((["a.png", "b.png"].length : Nat) : ℚ) * (1/2)⌋).toNat ∧
      selectedSlice false (1/2) ["a.png", "b.png"]
        = ["a.png", "b.png"].drop (⌊((["a.png", "b.png"].length : Nat) : ℚ) * (1/2)⌋).toNat ∧
      (selectedSlice true (1/2) ["a.png", "b.png"]).length
        = (⌊((["a.png", "b.png"].length : Nat) : ℚ) * (1/2)⌋).toNat ∧
      (selectedSlice true (1/2) ["a.png", "b.png"]).length
          + (selectedSlice false (1/2) ["a.png", "b.png"]).length
        = ["a.png", "b.png"].length) :=
  ⟨⟨by norm_num, by norm_num, by decide⟩,
    C1_split_point [("a.png", "1"), ("b.png", "1"), ("c.png", "2")] (1/2)
      (by norm_num) (by norm_num) "1" ["a.png", "b.png"] (by decide)⟩

/-- Claim C2: for every label mapping (with its dict-invariant of unique
path keys) and every ratio, each label's train and test subsets are
disjoint, and concatenating train then test reconstructs that label's
original path list, which is the mapping's paths with that label in
iteration order. -/
theorem C2_disjoint_reconstruction (m : List (String × String)) (r : ℚ)
    (lbl : String) (paths : List String)
    (hmem : (lbl, paths) ∈ buildBalanceDict m)
    (hkeys : (m.map Prod.fst).Nodup) :
    selectedSlice true r paths ++ selectedSlice false r paths = paths ∧
    paths = (m.filter (fun pr => pr.2 = lbl)).map Prod.fst ∧
    ∀ p, p ∈ selectedSlice true r paths → p ∉ selectedSlice false r paths := by
  have hpaths : paths = groupOf m lbl := ((mem_buildBalanceDict m lbl paths).1 hmem).2
  refine ⟨selectedSlice_concat r paths, hpaths, ?_⟩
  apply selectedSlice_disjoint
  rw [hpaths]
  exact groupOf_nodup m lbl hkeys

/-- Witness for C2 at the spec's worked example, ratio 7/10, label "1". -/
theorem C2_disjoint_reconstruction_witness :
    (("1", ["a.png", "b.png"])
        ∈ buildBalanceDict [("a.png", "1"), ("b.png", "1"), ("c.png", "2")] ∧
      (([("a.png", "1"), ("b.png", "1"), ("c.png", "2")].map Prod.fst).Nodup)) ∧
    (selectedSlice true (7/10) ["a.png", "b.png"]
        ++ selectedSlice false (7/10) ["a.png", "b.png"] = ["a.png", "b.png"] ∧
      ["a.png", "b.png"]
        = ([("a.png", "1"), ("b.png", "1"), ("c.png", "2")].filter
            (fun pr => pr.2 = "1")).map Prod.fst ∧
      ∀ p, p ∈ selectedSlice true (7/10) ["a.png", "b.png"]
        → p ∉ selectedSlice false (7/10) ["a.png", "b.png"]) :=
  ⟨⟨by decide, by decide⟩,
    C2_disjoint_reconstruction [("a.png", "1"), ("b.png", "1"), ("c.png", "2")] (7/10)
      "1" ["a.png", "b.png"] (by decide) (by decide)⟩

/-- Claim C3: for the mapping a.png↦"1", b.png↦"1", c.png↦"2" and ratio
1/2, the train split is exactly a.png and the test split is exactly b.png
and c.png; the split index is 1 for label "1" (2 paths) and 0 for label
"2" (1 path). -/
theorem C3_worked_example :
    split_dataset_with_balancing [("a.png", "1"), ("b.png", "1"), ("c.png", "2")]
        true (1/2) = .ok [("a.png", 0)] ∧
    split_dataset_with_balancing [("a.png", "1"), ("b.png", "1"), ("c.png", "2")]
        false (1/2) = .ok [("b.png", 0), ("c.png", 1)] ∧
    truncRat ((2 : ℚ) * (1/2)) = 1 ∧
    truncRat ((1 : ℚ) * (1/2)) = 0 := by
  have hbd : buildBalanceDict [("a.png", "1"), ("b.png", "1"), ("c.png", "2")]
      = [("1", ["a.png", "b.png"]), ("2", ["c.png"])] := by decide
  have hall : ∀ gp ∈ [("1", ["a.png", "b.png"]), ("2", ["c.png"])],
      (pyIntOfString gp.1).isSome := by decide
  have hp1 : pyIntOfString ("1") = some 1 := by decide
  have hp2 : pyIntOfString ("2") = some 2 := by decide
  have ht2 : truncRat (((["a.png", "b.png"].length : Nat) : ℚ) * (1/2)) = 1 := by
    norm_num [truncRat]
  have ht1 : truncRat (((["c.png"].length : Nat) : ℚ) * (1/2)) = 0 := by
    norm_num [truncRat]
  have hs1t : selectedSlice true (1/2) ["a.png", "b.png"] = ["a.png"] := by
    rw [selectedSlice]
    show pySliceTo ["a.png", "b.png"]
        (truncRat (((["a.png", "b.png"].length : Nat) : ℚ) * (1/2))) = _
    rw [ht2]
    decide
  have hs1f : selectedSlice false (1/2) ["a.png", "b.png"] = ["b.png"] := by
    rw [selectedSlice]
    show pySliceFrom ["a.png", "b.png"]
        (truncRat (((["a.png", "b.png"].length : Nat) : ℚ) * (1/2))) = _
    rw [ht2]
    decide
  have hs2t : selectedSlice true (1/2) ["c.png"] = [] := by
    rw [selectedSlice]
    show pySliceTo ["c.png"] (truncRat (((["c.png"].length : Nat) : ℚ) * (1/2))) = _
    rw [ht1]
    decide
  have hs2f : selectedSlice false (1/2) ["c.png"] = ["c.png"] := by
    rw [selectedSlice]
    show pySliceFrom ["c.png"] (truncRat (((["c.png"].length : Nat) : ℚ) * (1/2))) = _
    rw [ht1]
    decide
  refine ⟨?_, ?_, by norm_num [truncRat], by norm_num [truncRat]⟩
  · rw [split_dataset_with_balancing, hbd, splitLoop_ok_all _ _ _ _ hall]
    rw [List.map_cons, List.map_cons, List.map_nil, hs1t, hs2t]
    simp [hp1, hp2]
  · rw [split_dataset_with_balancing, hbd, splitLoop_ok_all _ _ _ _ hall]
    rw [List.map_cons, List.map_cons, List.map_nil, hs1f, hs2f]
    simp [hp1, hp2]

/-- Claim C5: for every ratio and both split sides, an empty label mapping
yields an empty dataset (length 0) and no exception is raised. -/
theorem C5_empty_mapping (train : Bool) (r : ℚ) :
    SpamDataset.make [] train r = .ok ⟨[]⟩ ∧
    ∀ d, SpamDataset.make [] train r = .ok d → d.len = 0 := by
  constructor
  · rfl
  · intro d hd
    have h : SpamDataset.make [] train r = .ok ⟨[]⟩ := rfl
    rw [h] at hd
    cases hd
    rfl

/-- Claim C8: the splitter is deterministic — its output is a function of
exactly the label mapping, the train/test flag, and the ratio. -/
theorem C8_deterministic (m1 m2 : List (String × String)) (t1 t2 : Bool) (r1 r2 : ℚ)
    (hm : m1 = m2) (ht : t1 = t2) (hr : r1 = r2) :
    split_dataset_with_balancing m1 t1 r1 = split_dataset_with_balancing m2 t2 r2 := by
  subst hm
  subst ht
  subst hr
  rfl

/-- Witness for C8: two runs on the same concrete mapping, flag and ratio. -/
theorem C8_deterministic_witness :
    ([("a.png", "1")] = [("a.png", "1")] ∧ true = true ∧ ((7:ℚ)/10) = 7/10) ∧
    split_dataset_with_balancing [("a.png", "1")] true (7/10)
      = split_dataset_with_balancing [("a.png", "1")] true (7/10) :=
  ⟨⟨rfl, rfl, rfl⟩,
    C8_deterministic [("a.png", "1")] [("a.png", "1")] true true (7/10) (7/10) rfl rfl rfl⟩

/-- Claim C10: for every ratio strictly less than 1, a label whose group
is a single path contributes nothing to the train split, and that path
always goes to the test split; for a nonnegative such ratio the split
index `int(1 * ratio)` is 0. -/
theorem C10_singleton_group (m : List (String × String)) (r : ℚ) (h1 : r < 1)
    (lbl : String) (p : String) (_hmem : (lbl, [p]) ∈ buildBalanceDict m) :
    selectedSlice true r [p] = [] ∧
    selectedSlice false r [p] = [p] ∧
    (0 ≤ r → truncRat ((([p] : List String).length : ℚ) * r) = 0) := by
  have hlen : ((([p] : List String).length : ℚ)) = 1 := by simp
  have hk : truncRat ((([p] : List String).length : ℚ) * r) ≤ 0 := by
    rw [hlen, one_mul, truncRat]
    by_cases hr : r < 0
    · rw [if_pos hr]
      have : (0:ℤ) ≤ ⌊-r⌋ := Int.floor_nonneg.2 (by linarith)
      omega
    · rw [if_neg hr]
      have h0 : ⌊r⌋ = 0 := Int.floor_eq_zero_iff.2 ⟨not_lt.1 hr, h1⟩
      omega
  have hidx : pyNormIdx (([p] : List String).length)
      (truncRat ((([p] : List String).length : ℚ) * r)) = 0 := by
    generalize truncRat ((([p] : List String).length : ℚ) * r) = k at hk
    rw [pyNormIdx]
    simp only [List.length_singleton]
    rcases lt_or_ge k 0 with hlt | hge
    · rw [if_pos hlt]
      omega
    · rw [if_neg (not_lt.2 hge)]
      omega
  refine ⟨?_, ?_, ?_⟩
  · rw [selectedSlice]
    show pySliceTo [p] (truncRat ((([p] : List String).length : ℚ) * r)) = _
    rw [pySliceTo, hidx]
    rfl
  · rw [selectedSlice]
    show pySliceFrom [p] (truncRat ((([p] : List String).length : ℚ) * r)) = _
    rw [pySliceFrom, hidx]
    rfl
  · intro hr0
    rw [hlen, one_mul, truncRat, if_neg (not_lt.2 hr0)]
    rw [Int.floor_eq_zero_iff]
    exact ⟨hr0, h1⟩

/-- Witness for C10 at the spec's worked example: label "2" has the single
path c.png and ratio 1/2 sends it to the test side. -/
theorem C10_singleton_group_witness :
    ((1:ℚ)/2 < 1 ∧
      ("2", ["c.png"]) ∈ buildBalanceDict [("a.png", "1"), ("b.png", "1"), ("c.png", "2")]) ∧
    (selectedSlice true (1/2) ["c.png"] = [] ∧
      selectedSlice false (1/2) ["c.png"] = ["c.png"] ∧
      (0 ≤ (1:ℚ)/2 → truncRat (((["c.png"] : List String).length : ℚ) * (1/2)) = 0)) :=
  ⟨⟨by norm_num, by decide⟩,
    C10_singleton_group [("a.png", "1"), ("b.png", "1"), ("c.png", "2")] (1/2)
      (by norm_num) "2" "c.png" (by decide)⟩

/-- Claim C4: every (path, label) pair the splitter produces, on either
side of the split, carries the zero-indexed label `int(source_label) - 1`. -/
theorem C4_zero_indexed_labels (m : List (String × String)) (t : Bool) (r : ℚ)
    (out : List (String × ℤ)) (hok : split_dataset_with_balancing m t r = .ok out) :
    ∀ pr ∈ out, ∃ lbl v, (pr.1, lbl) ∈ m ∧ pyIntOfString lbl = some v ∧ pr.2 = v - 1 :=
  split_ok_label_spec m t r out hok

/-- Witness for C4: for a.png labelled "1", the test side yields the pair
(a.png, 0) = (a.png, int("1") - 1). -/
theorem C4_zero_indexed_labels_witness :
    split_dataset_with_balancing [("a.png", "1")] false (7/10) = .ok [("a.png", 0)] ∧
    ∀ pr ∈ [(("a.png" : String), (0 : ℤ))], ∃ lbl v, (pr.1, lbl) ∈ [("a.png", "1")] ∧
      pyIntOfString lbl = some v ∧ pr.2 = v - 1 := by
  have hs : selectedSlice false (7/10) ["a.png"] = ["a.png"] := by
    rw [selectedSlice]
    show pySliceFrom ["a.png"] (truncRat (((["a.png"].length : Nat) : ℚ) * (7/10))) = _
    rw [show truncRat (((["a.png"].length : Nat) : ℚ) * (7/10)) = 0 by norm_num [truncRat]]
    decide
  have hok : split_dataset_with_balancing [("a.png", "1")] false (7/10)
      = .ok [("a.png", 0)] := by
    rw [split_dataset_with_balancing,
      show buildBalanceDict [("a.png", "1")] = [("1", ["a.png"])] from by decide,
      splitLoop_ok_all _ _ _ _ (by decide)]
    rw [List.map_cons, List.map_nil, hs]
    simp [show pyIntOfString ("1") = some 1 from by decide]
  exact ⟨hok, C4_zero_indexed_labels [("a.png", "1")] false (7/10) [("a.png", 0)] hok⟩

/-- Claim C9: label values are not validated — a label that does not parse
as an integer raises `ValueError` during dataset construction exactly when
one of its paths lands on the selected side; an integer label of 0 or less
flows through and yields a negative output label instead of failing. -/
theorem C9_no_label_validation (m : List (String × String)) (t : Bool) (r : ℚ) :
    (∀ lbl paths, (lbl, paths) ∈ buildBalanceDict m → pyIntOfString lbl = none →
      selectedSlice t r paths ≠ [] →
      SpamDataset.make m t r = .error .valueError) ∧
    (∀ out, split_dataset_with_balancing m t r = .ok out →
      ∀ pr ∈ out, ∃ lbl v, (pr.1, lbl) ∈ m ∧ pyIntOfString lbl = some v ∧
        pr.2 = v - 1 ∧ (v ≤ 0 → pr.2 < 0)) := by
  constructor
  · intro lbl paths hmem hnone hne
    rw [SpamDataset.make, split_dataset_with_balancing,
      splitLoop_error t r _ _ lbl paths hmem hnone hne]
    rfl
  · intro out hok pr hpr
    obtain ⟨lbl, v, hin, hv, hlab⟩ := split_ok_label_spec m t r out hok pr hpr
    exact ⟨lbl, v, hin, hv, hlab, fun hv0 => by omega⟩

/-- Witness for C9: the unparsable label "spam" raises `ValueError` on the
test side, and the label "0" produces output label -1 without failing. -/
theorem C9_no_label_validation_witness :
    ((("spam", ["a.png"]) ∈ buildBalanceDict [("a.png", "spam")] ∧
        pyIntOfString ("spam") = none ∧
        selectedSlice false (1/2) ["a.png"] ≠ []) ∧
      SpamDataset.make [("a.png", "spam")] false (1/2) = .error .valueError) ∧
    ((split_dataset_with_balancing [("b.png", "0")] false (1/2) = .ok [("b.png", -1)]) ∧
      ∀ pr ∈ [(("b.png" : String), (-1 : ℤ))], ∃ lbl v, (pr.1, lbl) ∈ [("b.png", "0")] ∧
        pyIntOfString lbl = some v ∧ pr.2 = v - 1 ∧ (v ≤ 0 → pr.2 < 0)) := by
  have hsa : selectedSlice false (1/2) ["a.png"] = ["a.png"] := by
    rw [selectedSlice]
    show pySliceFrom ["a.png"] (truncRat (((["a.png"].length : Nat) : ℚ) * (1/2))) = _
    rw [show truncRat (((["a.png"].length : Nat) : ℚ) * (1/2)) = 0 by norm_num [truncRat]]
    decide
  have hsb : selectedSlice false (1/2) ["b.png"] = ["b.png"] := by
    rw [selectedSlice]
    show pySliceFrom ["b.png"] (truncRat (((["b.png"].length : Nat) : ℚ) * (1/2))) = _
    rw [show truncRat (((["b.png"].length : Nat) : ℚ) * (1/2)) = 0 by norm_num [truncRat]]
    decide
  have hok : split_dataset_with_balancing [("b.png", "0")] false (1/2)
      = .ok [("b.png", -1)] := by
    rw [split_dataset_with_balancing,
      show buildBalanceDict [("b.png", "0")] = [("0", ["b.png"])] from by decide,
      splitLoop_ok_all _ _ _ _ (by decide)]
    rw [List.map_cons, List.map_nil, hsb]
    simp [show pyIntOfString ("0") = some 0 from by decide]
  refine ⟨⟨⟨by decide, by decide, by rw [hsa]; simp⟩, ?_⟩, hok, ?_⟩
  · exact (C9_no_label_validation [("a.png", "spam")] false (1/2)).1 ("spam") ["a.png"]
      (by decide) (by decide) (by rw [hsa]; simp)
  · exact (C9_no_label_validation [("b.png", "0")] false (1/2)).2 [("b.png", -1)] hok

/-- Claim C6 (amended): the loss value embedded in epoch e's checkpoint
name is the mean of that epoch's per-batch losses EACH FIRST ROUNDED to
three decimals (the values the code appends to `losses`), with the mean
itself rounded to three decimals — not the rounded mean of the raw
losses. -/
theorem C6_checkpoint_loss_mean (c : String) (f : Nat → List ℚ)
    (h : ∀ e, e < num_epochs → f e ≠ []) (e : Nat) (he : e < num_epochs) :
    (savedCheckpoints c f)[e]?
      = some (checkpointName e
          (round3 (((f e).map round3).sum / ((f e).length : ℚ)))) := by
  rw [savedCheckpoints, trainEpochs_eq c f h]
  rw [List.getElem?_map, List.getElem?_range he]
  rfl

/-- Witness for C6 (amended) at epoch 3 with constant per-batch losses. -/
theorem C6_checkpoint_loss_mean_witness :
    ((∀ e, e < num_epochs → (fun _ : Nat => [(1:ℚ)/2]) e ≠ []) ∧ 3 < num_epochs) ∧
    (savedCheckpoints ("ck") (fun _ => [(1:ℚ)/2]))[3]?
      = some (checkpointName 3
          (round3 ((([(1:ℚ)/2].map round3).sum / (([(1:ℚ)/2] : List ℚ).length : ℚ)))))  :=
  ⟨⟨fun _ _ => List.cons_ne_nil _ _, by decide⟩,
    C6_checkpoint_loss_mean ("ck") (fun _ => [(1:ℚ)/2])
      (fun _ _ => List.cons_ne_nil _ _) 3 (by decide)⟩

/-- Counterexample to claim C6 as stated: with raw per-batch losses
0.0014, 0.0014, 0.0019, the mean of the rounded losses
(0.001 + 0.001 + 0.002)/3 rounds to 0.001, while the raw mean 0.0047/3
rounds to 0.002, so the loss in the epoch-3 checkpoint name is NOT the
epoch's raw mean loss rounded to three decimals. -/
theorem C6_counterexample :
    (savedCheckpoints ("google/vit-base-patch16-224-in21k")
        (fun _ => [7/5000, 7/5000, 19/10000]))[3]?
      ≠ some (checkpointName 3
          (round3 ((([7/5000, 7/5000, 19/10000] : List ℚ).sum
            / (([7/5000, 7/5000, 19/10000] : List ℚ).length : ℚ))))) := by
  have hne : ∀ e, e < num_epochs →
      (fun _ : Nat => ([7/5000, 7/5000, 19/10000] : List ℚ)) e ≠ [] :=
    fun _ _ => List.cons_ne_nil _ _
  have hX : round3 ((([7/5000, 7/5000, 19/10000] : List ℚ).map round3).sum
      / (([7/5000, 7/5000, 19/10000] : List ℚ).length : ℚ)) = 1/1000 := by
    simp only [List.map_cons, List.map_nil, List.sum_cons, List.sum_nil,
      List.length_cons, List.length_nil]
    norm_num [round3, roundHalfEven]
  have hY : round3 ((([7/5000, 7/5000, 19/10000] : List ℚ).sum
      / (([7/5000, 7/5000, 19/10000] : List ℚ).length : ℚ))) = 1/500 := by
    simp only [List.sum_cons, List.sum_nil, List.length_cons, List.length_nil]
    norm_num [round3, roundHalfEven]
  rw [savedCheckpoints, trainEpochs_eq _ _ hne]
  rw [List.getElem?_map, List.getElem?_range (by decide : 3 < num_epochs)]
  simp only [Option.map_some', ne_eq, Option.some.injEq]
  rw [hX, hY]
  rw [checkpointName, checkpointName, formatPyFloat, formatPyFloat]
  rw [show (⌊(1:ℚ)/1000 * 1000⌋ : ℤ) = 1 by norm_num,
    show (⌊(1:ℚ)/500 * 1000⌋ : ℤ) = 2 by norm_num]
  decide

/-- Claim C7: training runs exactly 5 epochs, saves exactly one checkpoint
per epoch whose name is determined by the epoch index and the rounded mean
loss alone in the format vit_epochs_{epoch}_loss_{mean}.pt, and returns
the last epoch's checkpoint name. -/
theorem C7_five_epoch_checkpoints (c : String) (f : Nat → List ℚ)
    (h : ∀ e, e < num_epochs → f e ≠ []) :
    num_epochs = 5 ∧
    (savedCheckpoints c f).length = num_epochs ∧
    (∀ e, e < num_epochs → (savedCheckpoints c f)[e]?
        = some (checkpointName e
            (round3 (((f e).map round3).sum / ((f e).length : ℚ))))) ∧
    (savedCheckpoints c f).getLast? = some (trainResult c f) ∧
    trainResult c f
      = checkpointName 4 (round3 (((f 4).map round3).sum / ((f 4).length : ℚ))) ∧
    checkpointName 3 (412/1000) = "vit_epochs_3_loss_0.412.pt" := by
  have he := trainEpochs_eq c f h
  refine ⟨rfl, ?_, ?_, ?_, ?_, ?_⟩
  · rw [savedCheckpoints, he]
    simp
  · intro e hlt
    rw [savedCheckpoints, he]
    rw [List.getElem?_map, List.getElem?_range hlt]
    rfl
  · rw [savedCheckpoints, trainResult, he]
    rw [show List.range num_epochs = [0, 1, 2, 3, 4] from by decide]
    simp
  · rw [trainResult, he]
  · rw [checkpointName, formatPyFloat]
    rw [show (⌊(412:ℚ)/1000 * 1000⌋ : ℤ) = 412 by norm_num]
    decide

/-- Witness for C7 with constant per-batch losses 0.5. -/
theorem C7_five_epoch_checkpoints_witness :
    (∀ e, e < num_epochs → (fun _ : Nat => [(1:ℚ)/2]) e ≠ []) ∧
    (num_epochs = 5 ∧
      (savedCheckpoints ("ck0") (fun _ => [(1:ℚ)/2])).length = num_epochs ∧
      (∀ e, e < num_epochs → (savedCheckpoints ("ck0") (fun _ => [(1:ℚ)/2]))[e]?
          = some (checkpointName e
              (round3 ((([(1:ℚ)/2].map round3).sum / (([(1:ℚ)/2] : List ℚ).length : ℚ))))))  ∧
      (savedCheckpoints ("ck0") (fun _ => [(1:ℚ)/2])).getLast?
        = some (trainResult ("ck0") (fun _ => [(1:ℚ)/2])) ∧
      trainResult ("ck0") (fun _ => [(1:ℚ)/2])
        = checkpointName 4 (round3 ((([(1:ℚ)/2].map round3).sum
            / (([(1:ℚ)/2] : List ℚ).length : ℚ)))) ∧
      checkpointName 3 (412/1000) = "vit_epochs_3_loss_0.412.pt") :=
  ⟨fun _ _ => List.cons_ne_nil _ _,
    C7_five_epoch_checkpoints ("ck0") (fun _ => [(1:ℚ)/2]) (fun _ _ => List.cons_ne_nil _ _)⟩
